import Mathlib

/-!
Shallow embedding of the geoalchemy-alembic-pydantic-fastapi demo repository.

The embedding covers the geometry/storage core described by the spec:

* the WKT text codec (the repository delegates text parsing to `shapely.wkt.loads`
  and text production to `shapely`'s `.wkt` property; both are library code not
  present under `src/`, so they are modelled here from the spec's grammar
  `POINT(<lon> <lat>)`, with rationals standing in for IEEE doubles);
* `geoalchemy2.shape.from_shape` / `to_shape` (the native value is modelled as a
  geometry tagged with an SRID, since WKB encoding of coordinates is lossless);
* the SQLAlchemy model `ExamplePoint` (`src/app/models.py`), the CRUD operations
  (`src/app/crud.py`), the Pydantic schemas (`src/app/schemas.py`), the FastAPI
  routes (`src/app/routes.py`) and the session dependency (`src/app/db.py`).

The database is modelled as the list of persisted rows in backend storage order
together with the next storage-generated primary key.  A `SELECT` without
`ORDER BY` returns rows in that backend order; `ORDER BY id` is modelled as
sorting by `id`.  Timestamps are abstract instants (`ℕ`) supplied by a clock
parameter, mirroring `datetime.now(timezone.utc)`.
-/

/-- Value of a least-significant-digit-first base-10 digit list. -/
def ofDigitsLSB : List ℕ → ℕ
  | [] => 0
  | d :: ds => d + 10 * ofDigitsLSB ds

/-- Base-10 digits of `n`, least significant first, computed with explicit fuel
so that the definition is structural and kernel-reducible. -/
def natDigitsAux : ℕ → ℕ → List ℕ
  | 0, _ => []
  | fuel + 1, n => if n = 0 then [] else n % 10 :: natDigitsAux fuel (n / 10)

/-- Base-10 digits of `n`, least significant first (`[]` for `0`). -/
def natDigits (n : ℕ) : List ℕ := natDigitsAux n n

/-- Character for a single decimal digit. -/
def digitChar (d : ℕ) : Char := Char.ofNat (48 + d)

/-- Numeric value of a decimal digit character. -/
def charVal (c : Char) : ℕ := c.toNat - 48

/-- Value of a most-significant-first list of decimal digit characters. -/
def natOfDigitChars (cs : List Char) : ℕ :=
  cs.foldl (fun a c => 10 * a + charVal c) 0

/-- Decimal rendering of a natural number (most significant digit first). -/
def natToChars (n : ℕ) : List Char :=
  match natDigits n with
  | [] => ['0']
  | ds => ds.reverse.map digitChar

/-- Fueled floor of `log 2`: `log2Aux n n` is `⌊log₂ n⌋` for `n ≥ 1`. -/
def log2Aux : ℕ → ℕ → ℕ
  | 0, _ => 0
  | fuel + 1, n => if 2 ≤ n then log2Aux fuel (n / 2) + 1 else 0

/-- Number of fractional digits used when rendering a fraction with
denominator `n`: any `k` with `n ∣ 10 ^ k` for decimal-representable `n`
works, and `⌊log₂ n⌋` is such a `k`. -/
def klen (n : ℕ) : ℕ := log2Aux n n

/-- Fractional digit list (least significant first) of `fp` rendered to `K`
decimal places, with trailing display zeros (the low-significance end)
stripped. -/
def fracDigits (fp K : ℕ) : List ℕ :=
  (natDigits fp ++ List.replicate (K - (natDigits fp).length) 0).dropWhile (· == 0)

/-- Render a fractional digit list: nothing when empty, otherwise a decimal
point followed by the digits, most significant first. -/
def fracChars (ds : List ℕ) : List Char :=
  if ds = [] then [] else '.' :: (ds.reverse.map digitChar)

/-- Modelled from the spec: decimal rendering of the nonnegative fraction
`num / den` produced by the GEOS WKT writer behind `shapely`'s `.wkt`, for a
denominator dividing a power of ten (every IEEE double has this form).  The
value is scaled by `10 ^ klen den` (an exact operation for such
denominators), split into integer and fractional digits, and trailing
fractional zeros are stripped, giving the canonical shortest decimal form. -/
def fmtAbs (num den : ℕ) : List Char :=
  natToChars (num * 10 ^ klen den / den / 10 ^ klen den) ++
    fracChars (fracDigits (num * 10 ^ klen den / den % 10 ^ klen den) (klen den))

/-- Modelled from the spec: decimal rendering of an ordinate value. -/
def fmtChars (q : ℚ) : List Char :=
  if q.num < 0 then '-' :: fmtAbs q.num.natAbs q.den else fmtAbs q.num.natAbs q.den

/-- Modelled from the spec: decimal rendering of an ordinate, as a string. -/
def fmtRat (q : ℚ) : String := String.mk (fmtChars q)

/-- Characters that may appear inside a WKT number token. -/
def isNumChar (c : Char) : Bool := c.isDigit || c == '-' || c == '.'

/-- Modelled from the spec: parse an unsigned decimal number token
(`digits` or `digits.digits`), the numeric grammar of WKT ordinates. -/
def parseUnsigned (cs : List Char) : Option ℚ :=
  if cs.takeWhile Char.isDigit = [] then none
  else
    match cs.dropWhile Char.isDigit with
    | [] => some (mkRat (natOfDigitChars (cs.takeWhile Char.isDigit)) 1)
    | '.' :: fracCs =>
      if fracCs = [] then none
      else if fracCs.all Char.isDigit then
        some (mkRat
          (natOfDigitChars (cs.takeWhile Char.isDigit) * 10 ^ fracCs.length
            + natOfDigitChars fracCs)
          (10 ^ fracCs.length))
      else none
    | _ => none

/-- Modelled from the spec: parse a signed decimal number token. -/
def parseNumChars (cs : List Char) : Option ℚ :=
  if cs.head? = some '-' then
    (parseUnsigned cs.tail).map (fun q => mkRat (-q.num) q.den)
  else parseUnsigned cs

/-- Raw lexical chunks of a WKT string: maximal runs of number characters and
of letters, punctuation, separators, and anything else (`junk`). -/
inductive WktRaw : Type
  | numChunk (cs : List Char)
  | wordChunk (cs : List Char)
  | lparen
  | rparen
  | comma
  | sep
  | junk
deriving DecidableEq

/-- One step of the WKT lexer, consuming character `c` in front of the
already-lexed chunks `ts`; number and word chunks are grown one character at
a time. -/
def rawStep (c : Char) (ts : List WktRaw) : List WktRaw :=
  if isNumChar c then
    match ts with
    | WktRaw.numChunk cs :: rest => WktRaw.numChunk (c :: cs) :: rest
    | _ => WktRaw.numChunk [c] :: ts
  else if c.isAlpha then
    match ts with
    | WktRaw.wordChunk cs :: rest => WktRaw.wordChunk (c :: cs) :: rest
    | _ => WktRaw.wordChunk [c] :: ts
  else if c = '(' then WktRaw.lparen :: ts
  else if c = ')' then WktRaw.rparen :: ts
  else if c = ',' then WktRaw.comma :: ts
  else if c = ' ' then WktRaw.sep :: ts
  else WktRaw.junk :: ts

/-- Lex a WKT character list into raw chunks. -/
def rawTokens (cs : List Char) : List WktRaw := cs.foldr rawStep []

/-- Tokens of a WKT expression. -/
inductive WktTok : Type
  | word (cs : List Char)
  | num (q : ℚ)
  | lparen
  | rparen
  | comma
deriving DecidableEq

/-- Convert raw chunks to tokens: number chunks must parse as decimal numbers,
separators are dropped, junk makes the whole text unparseable. -/
def toToks : List WktRaw → Option (List WktTok)
  | [] => some []
  | WktRaw.sep :: r => toToks r
  | WktRaw.numChunk cs :: r =>
    match parseNumChars cs, toToks r with
    | some q, some ts => some (WktTok.num q :: ts)
    | _, _ => none
  | WktRaw.wordChunk cs :: r => (toToks r).map (WktTok.word cs :: ·)
  | WktRaw.lparen :: r => (toToks r).map (WktTok.lparen :: ·)
  | WktRaw.rparen :: r => (toToks r).map (WktTok.rparen :: ·)
  | WktRaw.comma :: r => (toToks r).map (WktTok.comma :: ·)
  | WktRaw.junk :: _ => none

/-- Tokenize a WKT character list. -/
def tokenize (cs : List Char) : Option (List WktTok) := toToks (rawTokens cs)

/-- In-memory geometry values, as produced by `shapely.wkt.loads`.  The
repository only ever constructs points; line strings are included because
`wkt.loads` parses them successfully (the spec's non-point example). -/
inductive Geom : Type
  | point (lon lat : ℚ)
  | linestring (pts : List (ℚ × ℚ))
deriving DecidableEq

/-- Parse the coordinate pair list of a LINESTRING body, up to the closing
parenthesis. -/
def parsePairs : List WktTok → Option (List (ℚ × ℚ))
  | [WktTok.num a, WktTok.num b, WktTok.rparen] => some [(a, b)]
  | WktTok.num a :: WktTok.num b :: WktTok.comma :: rest =>
    (parsePairs rest).map ((a, b) :: ·)
  | _ => none

/-- Parse a token list as a geometry: `POINT(x y)` or `LINESTRING(x y, ...)`
with at least two coordinate pairs. -/
def parseToks (ts : List WktTok) : Option Geom :=
  match ts with
  | WktTok.word w :: WktTok.lparen :: rest =>
    if w = "POINT".data then
      match rest with
      | [WktTok.num a, WktTok.num b, WktTok.rparen] => some (Geom.point a b)
      | _ => none
    else if w = "LINESTRING".data then
      (parsePairs rest).bind (fun ps => if 2 ≤ ps.length then some (Geom.linestring ps) else none)
    else none
  | _ => none

/-- Modelled from the spec: `shapely.wkt.loads`, the geometry-text decoder the
repository calls in `create_example_point` (`src/app/crud.py`).  Returns
`none` where the library raises a parse error. -/
def wkt_loads (s : String) : Option Geom := (tokenize s.data).bind parseToks

/-- Render one coordinate pair of a line string. -/
def fmtPair (p : ℚ × ℚ) : List Char := fmtChars p.1 ++ ' ' :: fmtChars p.2

/-- Join rendered coordinate pairs with a comma and space. -/
def commaJoin : List (List Char) → List Char
  | [] => []
  | [x] => x
  | x :: xs => x ++ ',' :: ' ' :: commaJoin xs

/-- Modelled from the spec: the WKT text of a geometry, i.e. the `.wkt`
property of the `shapely` value returned by `to_shape`, in the spec's
canonical grammar `POINT(<lon> <lat>)`. -/
def wktChars : Geom → List Char
  | Geom.point a b =>
    'P' :: 'O' :: 'I' :: 'N' :: 'T' :: '(' :: (fmtChars a ++ ' ' :: (fmtChars b ++ [')']))
  | Geom.linestring ps => "LINESTRING(".data ++ commaJoin (ps.map fmtPair) ++ [')']

/-- Native spatial value handed to the backend, as produced by
`geoalchemy2.shape.from_shape`: the geometry plus an SRID tag (the WKB byte
encoding is lossless on coordinates, so it is kept abstract). -/
structure WKBElement : Type where
  geom : Geom
  srid : ℕ
deriving DecidableEq

/-- Modelled from the spec: `geoalchemy2.shape.from_shape` — tag a geometry
with an SRID for persistence (`toNative` in the spec). -/
def from_shape (g : Geom) (srid : ℕ) : WKBElement := ⟨g, srid⟩

/-- Modelled from the spec: `geoalchemy2.shape.to_shape` — recover the
geometry from the backend-native value. -/
def to_shape (w : WKBElement) : Geom := w.geom

/-- The `convert_wkb_to_wkt` field validator of `ExamplePointModel`
(`src/app/schemas.py`): converts the native value back to WKT text
(`decodeToText` in the spec). -/
def convert_wkb_to_wkt (v : WKBElement) : String := String.mk (wktChars (to_shape v))

/-- Request schema `ExamplePointCreate` (`src/app/schemas.py`): a WKT string
and a numeric value. -/
structure ExamplePointCreate : Type where
  geom : String
  value : ℚ
deriving DecidableEq

/-- ORM row `ExamplePoint` (`src/app/models.py`): integer primary key,
non-null creation instant, non-null geometry column `Geometry("POINT",
srid=4326)`, non-null numeric value.  `id` and `created_at` are `ℕ` rather
than option types because the columns are non-nullable. -/
structure ExamplePoint : Type where
  id : ℕ
  created_at : ℕ
  geom : WKBElement
  value : ℚ
deriving DecidableEq

/-- Response schema `ExamplePointModel` (`src/app/schemas.py`): the geometry
decoded to WKT text via `convert_wkb_to_wkt`; `created_at` is declared
`Optional` in the schema. -/
structure ExamplePointModel : Type where
  id : ℕ
  created_at : Option ℕ
  geom : String
  value : ℚ
deriving DecidableEq

/-- Serialisation of an ORM row through `ExamplePointModel` (FastAPI's
`response_model` applies the schema, whose validator decodes the geometry). -/
def toResponseModel (r : ExamplePoint) : ExamplePointModel :=
  ⟨r.id, some r.created_at, convert_wkb_to_wkt r.geom, r.value⟩

/-- State of the spatial store: persisted rows in backend storage order, plus
the next storage-generated primary key. -/
structure DBState : Type where
  rows : List ExamplePoint
  nextId : ℕ
deriving DecidableEq

/-- Error taxonomy of the spec (§7) plus the HTTP-layer validation rejection.
`outOfRange` is never produced by the code; it is included so that the spec's
claimed behaviour can be stated and refuted. -/
inductive ApiError : Type
  | malformedGeometry
  | outOfRange
  | invalidBounds (msg : String)
  | constraintViolation
  | validationError
deriving DecidableEq

/-- Whether a geometry is a point, the check enforced by the
`Geometry("POINT", srid=4326)` column type at insert time. -/
def isPointGeom : Geom → Bool
  | Geom.point _ _ => true
  | Geom.linestring _ => false

/-- `create_example_point` (`src/app/crud.py`): parse the WKT text with
`wkt.loads` (raising on malformed text), tag it with SRID 4326 via
`from_shape`, then `add`/`commit`/`refresh`.  The insert is rejected by the
geometry column's type constraint if the parsed geometry is not a point.
Returns the result together with the store state after the call. -/
def create_example_point (db : DBState) (now : ℕ) (data : ExamplePointCreate) :
    Except ApiError ExamplePoint × DBState :=
  match wkt_loads data.geom with
  | none => (Except.error ApiError.malformedGeometry, db)
  | some shape =>
    let point_geom := from_shape shape 4326
    if isPointGeom point_geom.geom then
      let db_obj : ExamplePoint := ⟨db.nextId, now, point_geom, data.value⟩
      (Except.ok db_obj, ⟨db.rows ++ [db_obj], db.nextId + 1⟩)
    else (Except.error ApiError.constraintViolation, db)

/-- `get_all_example_points` (`src/app/crud.py`): `select(ExamplePoint)` with
no `ORDER BY`, so rows come back in backend storage order. -/
def get_all_example_points (db : DBState) : List ExamplePoint := db.rows

/-- Axis-aligned envelope produced by `ST_MakeEnvelope`. -/
structure Envelope : Type where
  xmin : ℚ
  ymin : ℚ
  xmax : ℚ
  ymax : ℚ
  srid : ℕ
deriving DecidableEq

/-- `func.ST_MakeEnvelope(min_lon, min_lat, max_lon, max_lat, 4326)` as used
in `get_example_points_in_bbox` (`src/app/crud.py`). -/
def ST_MakeEnvelope (xmin ymin xmax ymax : ℚ) (srid : ℕ) : Envelope :=
  ⟨xmin, ymin, xmax, ymax, srid⟩

/-- `func.ST_Intersects(geom, envelope)`: true when the geometry shares a
point with the closed envelope (boundary contact included).  For points this
is exact; for line strings it is stated on the vertices, which is all the
repository can store anyway given the point-only column constraint. -/
def ST_Intersects (g : Geom) (e : Envelope) : Bool :=
  match g with
  | Geom.point x y => decide (e.xmin ≤ x ∧ x ≤ e.xmax ∧ e.ymin ≤ y ∧ y ≤ e.ymax)
  | Geom.linestring ps =>
    ps.any (fun p => decide (e.xmin ≤ p.1 ∧ p.1 ≤ e.xmax ∧ e.ymin ≤ p.2 ∧ p.2 ≤ e.ymax))

/-- Insert a row into a list that is kept sorted by ascending `id`. -/
def insertById (r : ExamplePoint) : List ExamplePoint → List ExamplePoint
  | [] => [r]
  | x :: xs => if r.id ≤ x.id then r :: x :: xs else x :: insertById r xs

/-- Sort rows by ascending `id` — the meaning of `ORDER BY id`. -/
def sortById (l : List ExamplePoint) : List ExamplePoint := l.foldr insertById []

/-- `get_example_points_in_bbox` (`src/app/crud.py`): select the rows whose
geometry intersects the `ST_MakeEnvelope` envelope, ordered by ascending
`id`. -/
def get_example_points_in_bbox (db : DBState) (min_lat max_lat min_lon max_lon : ℚ) :
    List ExamplePoint :=
  sortById ((db.rows).filter (fun r =>
    ST_Intersects (to_shape r.geom) (ST_MakeEnvelope min_lon min_lat max_lon max_lat 4326)))

/-- Route handler body `read_points` (`src/app/routes.py`): list all points,
serialised through the response schema. -/
def read_points (db : DBState) : List ExamplePointModel :=
  (get_all_example_points db).map toResponseModel

/-- Route handler body `create_point` (`src/app/routes.py`): create and
serialise through the response schema. -/
def create_point (db : DBState) (now : ℕ) (payload : ExamplePointCreate) :
    Except ApiError ExamplePointModel × DBState :=
  match create_example_point db now payload with
  | (Except.ok r, db2) => (Except.ok (toResponseModel r), db2)
  | (Except.error e, db2) => (Except.error e, db2)

/-- Route handler body `read_points_in_bbox` (`src/app/routes.py`, lines
101-112): reject `min > max` bounds with HTTP 422 before calling the CRUD
layer, otherwise query and serialise. -/
def read_points_in_bbox (db : DBState) (min_lat max_lat min_lon max_lon : ℚ) :
    Except ApiError (List ExamplePointModel) :=
  if min_lat > max_lat then Except.error (ApiError.invalidBounds "min_lat must be <= max_lat")
  else if min_lon > max_lon then Except.error (ApiError.invalidBounds "min_lon must be <= max_lon")
  else Except.ok ((get_example_points_in_bbox db min_lat max_lat min_lon max_lon).map
    toResponseModel)

/-- The full `/points/bbox` endpoint: FastAPI first validates the `Query`
bounds declared in `read_points_in_bbox`'s signature (`ge=-90, le=90` for
latitudes, `ge=-180, le=180` for longitudes) and rejects violations with a
422 validation error before the handler body runs. -/
def bbox_endpoint (db : DBState) (min_lat max_lat min_lon max_lon : ℚ) :
    Except ApiError (List ExamplePointModel) :=
  if min_lat < -90 ∨ 90 < min_lat ∨ max_lat < -90 ∨ 90 < max_lat
      ∨ min_lon < -180 ∨ 180 < min_lon ∨ max_lon < -180 ∨ 180 < max_lon then
    Except.error ApiError.validationError
  else read_points_in_bbox db min_lat max_lat min_lon max_lon

/-- Count of sessions ever opened and ever closed by `get_db`. -/
structure SessionLog : Type where
  opened : ℕ
  closed : ℕ
deriving DecidableEq

/-- `get_db` (`src/app/db.py`): open one session, run the request body, and
close the session in a `finally` block, i.e. on the success and on the error
exit path alike.  The body is any session-using computation returning either
a value or an error together with the updated store. -/
def get_db {α : Type} (body : DBState → Except ApiError α × DBState)
    (db : DBState) (log : SessionLog) : (Except ApiError α × DBState) × SessionLog :=
  let log1 : SessionLog := ⟨log.opened + 1, log.closed⟩
  match body db with
  | (Except.ok a, db2) => ((Except.ok a, db2), ⟨log1.opened, log1.closed + 1⟩)
  | (Except.error e, db2) => ((Except.error e, db2), ⟨log1.opened, log1.closed + 1⟩)

/-- Decidable equality of results, for concrete evaluation. -/
instance {ε α : Type} [DecidableEq ε] [DecidableEq α] : DecidableEq (Except ε α) := fun a b =>
  match a, b with
  | Except.ok x, Except.ok y =>
    if h : x = y then Decidable.isTrue (by rw [h]) else Decidable.isFalse (by simp [h])
  | Except.error x, Except.error y =>
    if h : x = y then Decidable.isTrue (by rw [h]) else Decidable.isFalse (by simp [h])
  | Except.ok _, Except.error _ => Decidable.isFalse (by simp)
  | Except.error _, Except.ok _ => Decidable.isFalse (by simp)

/-- Whether a result is a success. -/
def resultIsOk {α : Type} : Except ApiError α → Bool
  | Except.ok _ => true
  | Except.error _ => false

/-- Decimal representability: the denominator divides a power of ten.  Every
IEEE double is of this form, so this hypothesis is the spec's
"modulo floating-point formatting tolerance". -/
def DecRepr (q : ℚ) : Prop := ∃ k : ℕ, q.den ∣ 10 ^ k

/-- Invariant: every persisted geometry is tagged with SRID 4326. -/
def Srid4326 (db : DBState) : Prop := ∀ r ∈ db.rows, r.geom.srid = 4326

/-- The empty store, with the first storage-generated key. -/
def db0 : DBState := ⟨[], 1⟩

/-- A stored point row at the envelope corner `(1, 1)`. -/
def cornerRow : ExamplePoint := ⟨1, 0, from_shape (Geom.point 1 1) 4326, mkRat 1 1⟩

/-- A store holding exactly the corner point. -/
def dbCorner : DBState := ⟨[cornerRow], 2⟩

/-- Two point rows whose backend storage order disagrees with `id` order. -/
def rowFirst : ExamplePoint := ⟨1, 0, from_shape (Geom.point 0 0) 4326, 1⟩

/-- Second row (see `rowFirst`). -/
def rowSecond : ExamplePoint := ⟨2, 1, from_shape (Geom.point (mkRat 1 2) 0) 4326, 2⟩

/-- A store whose backend storage order is `[id 2, id 1]` — nothing in the
repository constrains the order a `SELECT` without `ORDER BY` returns. -/
def dbUnsorted : DBState := ⟨[rowSecond, rowFirst], 3⟩

theorem ofDigitsLSB_natDigitsAux (fuel : ℕ) :
    ∀ n, n ≤ fuel → ofDigitsLSB (natDigitsAux fuel n) = n := by
  induction fuel with
  | zero =>
    intro n h
    have hn : n = 0 := Nat.le_zero.mp h
    subst hn
    rfl
  | succ f ih =>
    intro n h
    by_cases h0 : n = 0
    · subst h0
      simp [natDigitsAux, ofDigitsLSB]
    · have hdiv : n / 10 ≤ f := by
        have := Nat.div_lt_self (Nat.pos_of_ne_zero h0) (by norm_num : 1 < 10)
        omega
      rw [natDigitsAux, if_neg h0]
      rw [ofDigitsLSB, ih _ hdiv]
      omega

theorem natDigitsAux_lt_ten (fuel : ℕ) :
    ∀ n d, d ∈ natDigitsAux fuel n → d < 10 := by
  induction fuel with
  | zero => intro n d hd; simp [natDigitsAux] at hd
  | succ f ih =>
    intro n d hd
    by_cases h0 : n = 0
    · subst h0; simp [natDigitsAux] at hd
    · rw [natDigitsAux, if_neg h0] at hd
      rcases List.mem_cons.mp hd with h | h
      · subst h; exact Nat.mod_lt _ (by norm_num)
      · exact ih _ _ h

theorem natDigitsAux_length (fuel : ℕ) :
    ∀ n k, n ≤ fuel → n < 10 ^ k → (natDigitsAux fuel n).length ≤ k := by
  induction fuel with
  | zero =>
    intro n k h _
    have hn : n = 0 := Nat.le_zero.mp h
    subst hn
    simp [natDigitsAux]
  | succ f ih =>
    intro n k h hk
    by_cases h0 : n = 0
    · subst h0; simp [natDigitsAux]
    · rw [natDigitsAux, if_neg h0]
      have hkpos : k ≠ 0 := by
        intro e
        subst e
        simp at hk
        omega
      obtain ⟨j, rfl⟩ : ∃ j, k = j + 1 := ⟨k - 1, by omega⟩
      have hdivle : n / 10 ≤ f := by
        have := Nat.div_lt_self (Nat.pos_of_ne_zero h0) (by norm_num : 1 < 10)
        omega
      have hdivlt : n / 10 < 10 ^ j := by
        rw [Nat.div_lt_iff_lt_mul (by norm_num : (0:ℕ) < 10)]
        calc n < 10 ^ (j + 1) := hk
          _ = 10 ^ j * 10 := by rw [pow_succ]
      simpa using ih _ _ hdivle hdivlt

theorem ofDigitsLSB_replicate_zero (j : ℕ) : ofDigitsLSB (List.replicate j 0) = 0 := by
  induction j with
  | zero => rfl
  | succ i ih => simp [List.replicate, ofDigitsLSB, ih]

theorem ofDigitsLSB_append_zeros (ds : List ℕ) (j : ℕ) :
    ofDigitsLSB (ds ++ List.replicate j 0) = ofDigitsLSB ds := by
  induction ds with
  | nil => simp [ofDigitsLSB_replicate_zero, ofDigitsLSB]
  | cons d t ih => simp [ofDigitsLSB, ih]

theorem ofDigitsLSB_zeros_append (pre ds : List ℕ) (h : ∀ x ∈ pre, x = 0) :
    ofDigitsLSB (pre ++ ds) = 10 ^ pre.length * ofDigitsLSB ds := by
  induction pre with
  | nil => simp
  | cons p t ih =>
    have hp : p = 0 := h p (List.mem_cons_self p t)
    subst hp
    rw [List.cons_append, ofDigitsLSB, ih (fun x hx => h x (List.mem_cons_of_mem _ hx))]
    rw [List.length_cons, pow_succ]
    ring

theorem charVal_digitChar {d : ℕ} (h : d < 10) : charVal (digitChar d) = d := by
  interval_cases d <;> rfl

theorem isDigit_digitChar {d : ℕ} (h : d < 10) : (digitChar d).isDigit = true := by
  interval_cases d <;> rfl

theorem natOfDigitChars_append_one (cs : List Char) (c : Char) :
    natOfDigitChars (cs ++ [c]) = 10 * natOfDigitChars cs + charVal c := by
  unfold natOfDigitChars
  rw [List.foldl_append]
  rfl

theorem natOfDigitChars_reverse_map (ds : List ℕ) (h : ∀ d ∈ ds, d < 10) :
    natOfDigitChars (ds.reverse.map digitChar) = ofDigitsLSB ds := by
  induction ds with
  | nil => rfl
  | cons d t ih =>
    rw [List.reverse_cons, List.map_append]
    show natOfDigitChars (t.reverse.map digitChar ++ [digitChar d]) = _
    rw [natOfDigitChars_append_one, ih (fun x hx => h x (List.mem_cons_of_mem _ hx)),
      charVal_digitChar (h d (List.mem_cons_self d t))]
    rw [ofDigitsLSB]
    omega

theorem natDigits_eq_nil_iff (n : ℕ) : natDigits n = [] ↔ n = 0 := by
  constructor
  · intro h
    have := ofDigitsLSB_natDigitsAux n n le_rfl
    rw [show natDigitsAux n n = natDigits n from rfl, h] at this
    simpa [ofDigitsLSB] using this.symm
  · intro h; subst h; rfl

theorem natOfDigitChars_natToChars (n : ℕ) : natOfDigitChars (natToChars n) = n := by
  rcases h : natDigits n with _ | ⟨d, ds⟩
  · have hn : n = 0 := (natDigits_eq_nil_iff n).mp h
    subst hn
    rfl
  · have hb : ∀ x ∈ d :: ds, x < 10 := by
      rw [← h]
      exact fun x hx => natDigitsAux_lt_ten n n x hx
    have hrt : ofDigitsLSB (d :: ds) = n := by
      rw [← h]
      exact ofDigitsLSB_natDigitsAux n n le_rfl
    have : natToChars n = (d :: ds).reverse.map digitChar := by
      unfold natToChars
      rw [h]
    rw [this]
    exact (natOfDigitChars_reverse_map _ hb).trans hrt

theorem natToChars_ne_nil (n : ℕ) : natToChars n ≠ [] := by
  rcases h : natDigits n with _ | ⟨d, ds⟩
  · have : natToChars n = ['0'] := by unfold natToChars; rw [h]
    simp [this]
  · have : natToChars n = (d :: ds).reverse.map digitChar := by unfold natToChars; rw [h]
    simp [this]

theorem natToChars_all_digit (n : ℕ) : ∀ c ∈ natToChars n, c.isDigit = true := by
  intro c hc
  rcases h : natDigits n with _ | ⟨d, ds⟩
  · have he : natToChars n = ['0'] := by unfold natToChars; rw [h]
    rw [he] at hc
    simp at hc
    subst hc
    rfl
  · have he : natToChars n = (d :: ds).reverse.map digitChar := by unfold natToChars; rw [h]
    rw [he] at hc
    rcases List.mem_map.mp hc with ⟨x, hx, rfl⟩
    refine isDigit_digitChar ?_
    have : x ∈ d :: ds := List.mem_reverse.mp hx
    rw [← h] at this
    exact natDigitsAux_lt_ten n n x this

theorem log2Aux_bound (fuel : ℕ) :
    ∀ n, 0 < n → n ≤ fuel → n < 2 ^ (log2Aux fuel n + 1) := by
  induction fuel with
  | zero => intro n h1 h2; omega
  | succ f ih =>
    intro n h1 h2
    by_cases h : 2 ≤ n
    · rw [log2Aux, if_pos h]
      have hd1 : 0 < n / 2 := Nat.div_pos h (by norm_num)
      have hd2 : n / 2 ≤ f := by
        have := Nat.div_lt_self h1 (by norm_num : 1 < 2)
        omega
      have hih := ih (n / 2) hd1 hd2
      have h2n : n < 2 * (n / 2) + 2 := by omega
      have : n < 2 * 2 ^ (log2Aux f (n / 2) + 1) := by omega
      calc n < 2 * 2 ^ (log2Aux f (n / 2) + 1) := this
        _ = 2 ^ (log2Aux f (n / 2) + 1 + 1) := by rw [pow_succ]; ring
    · rw [log2Aux, if_neg h]
      have : n < 2 := by omega
      simpa using this

theorem le_klen_of_pow_le {a n : ℕ} (h2 : 2 ^ a ≤ n) : a ≤ klen n := by
  have hn : 0 < n := lt_of_lt_of_le (pow_pos (by norm_num : (0:ℕ) < 2) a) h2
  have hb : n < 2 ^ (klen n + 1) := log2Aux_bound n n hn le_rfl
  by_contra hc
  push_neg at hc
  have h3 : 2 ^ (klen n + 1) ≤ 2 ^ a := Nat.pow_le_pow_right (by norm_num) (by omega)
  exact lt_irrefl n (lt_of_lt_of_le (lt_of_lt_of_le hb h3) h2)

theorem dvd_ten_pow_klen {n j : ℕ} (hn : 0 < n) (h : n ∣ 10 ^ j) : n ∣ 10 ^ klen n := by
  have h25 : n ∣ 2 ^ j * 5 ^ j := by
    rwa [show (10:ℕ) ^ j = 2 ^ j * 5 ^ j by rw [← Nat.mul_pow]] at h
  obtain ⟨d2, d5, hd2, hd5, hprod⟩ := Nat.dvd_mul.mp h25
  obtain ⟨a, _, rfl⟩ := (Nat.dvd_prime_pow Nat.prime_two).mp hd2
  obtain ⟨b, _, rfl⟩ := (Nat.dvd_prime_pow Nat.prime_five).mp hd5
  subst hprod
  have ha2 : (2:ℕ) ^ a ≤ 2 ^ a * 5 ^ b := Nat.le_of_dvd hn ⟨5 ^ b, rfl⟩
  have hb5 : (5:ℕ) ^ b ≤ 2 ^ a * 5 ^ b := Nat.le_of_dvd hn ⟨2 ^ a, by ring⟩
  have hb2 : (2:ℕ) ^ b ≤ 2 ^ a * 5 ^ b := le_trans (Nat.pow_le_pow_left (by norm_num) b) hb5
  rw [show (10:ℕ) ^ klen (2 ^ a * 5 ^ b)
      = 2 ^ klen (2 ^ a * 5 ^ b) * 5 ^ klen (2 ^ a * 5 ^ b) by rw [← Nat.mul_pow]]
  exact mul_dvd_mul (pow_dvd_pow 2 (le_klen_of_pow_le ha2)) (pow_dvd_pow 5 (le_klen_of_pow_le hb2))

theorem takeWhile_all {p : Char → Bool} {l : List Char} (h : ∀ c ∈ l, p c = true) :
    l.takeWhile p = l := by
  induction l with
  | nil => rfl
  | cons c t ih =>
    rw [List.takeWhile_cons_of_pos (h c (List.mem_cons_self c t))]
    rw [ih (fun x hx => h x (List.mem_cons_of_mem _ hx))]

theorem dropWhile_all {p : Char → Bool} {l : List Char} (h : ∀ c ∈ l, p c = true) :
    l.dropWhile p = [] := by
  induction l with
  | nil => rfl
  | cons c t ih =>
    rw [List.dropWhile_cons_of_pos (h c (List.mem_cons_self c t))]
    exact ih (fun x hx => h x (List.mem_cons_of_mem _ hx))

theorem takeWhile_append_stop {p : Char → Bool} (xs : List Char) {y : Char} (ys : List Char)
    (hxs : ∀ c ∈ xs, p c = true) (hy : p y = false) :
    (xs ++ y :: ys).takeWhile p = xs := by
  induction xs with
  | nil =>
    simp only [List.nil_append]
    exact List.takeWhile_cons_of_neg (by simp [hy])
  | cons c t ih =>
    rw [List.cons_append, List.takeWhile_cons_of_pos (hxs c (List.mem_cons_self c t))]
    rw [ih (fun x hx => hxs x (List.mem_cons_of_mem _ hx))]

theorem dropWhile_append_stop {p : Char → Bool} (xs : List Char) {y : Char} (ys : List Char)
    (hxs : ∀ c ∈ xs, p c = true) (hy : p y = false) :
    (xs ++ y :: ys).dropWhile p = y :: ys := by
  induction xs with
  | nil =>
    simp only [List.nil_append]
    exact List.dropWhile_cons_of_neg (by simp [hy])
  | cons c t ih =>
    rw [List.cons_append, List.dropWhile_cons_of_pos (hxs c (List.mem_cons_self c t))]
    exact ih (fun x hx => hxs x (List.mem_cons_of_mem _ hx))

theorem parseUnsigned_int_chars (ics : List Char) (hne : ics ≠ [])
    (hdig : ∀ c ∈ ics, c.isDigit = true) :
    parseUnsigned ics = some (mkRat (natOfDigitChars ics) 1) := by
  unfold parseUnsigned
  rw [takeWhile_all hdig, dropWhile_all hdig, if_neg hne]

theorem parseUnsigned_frac_chars (ics fcs : List Char) (hne : ics ≠ [])
    (hdig : ∀ c ∈ ics, c.isDigit = true) (hfne : fcs ≠ [])
    (hfdig : ∀ c ∈ fcs, c.isDigit = true) :
    parseUnsigned (ics ++ '.' :: fcs) =
      some (mkRat (natOfDigitChars ics * 10 ^ fcs.length + natOfDigitChars fcs)
        (10 ^ fcs.length)) := by
  unfold parseUnsigned
  have hdot : ('.' : Char).isDigit = false := rfl
  rw [takeWhile_append_stop ics fcs hdig hdot, dropWhile_append_stop ics fcs hdig hdot,
    if_neg hne]
  show (if fcs = [] then none
    else if fcs.all Char.isDigit then
      some (mkRat (natOfDigitChars ics * 10 ^ fcs.length + natOfDigitChars fcs)
        (10 ^ fcs.length))
    else none) = _
  rw [if_neg hfne, if_pos (List.all_eq_true.mpr (fun c hc => hfdig c hc))]

theorem mkRat_eq_of_cross {a c b d : ℕ} (hb : b ≠ 0) (hd : d ≠ 0) (h : a * d = c * b) :
    mkRat (a : ℤ) b = mkRat (c : ℤ) d := by
  rw [Rat.mkRat_eq_div, Rat.mkRat_eq_div,
    div_eq_div_iff (by exact_mod_cast hb : ((b : ℚ) ≠ 0)) (by exact_mod_cast hd : ((d : ℚ) ≠ 0))]
  exact_mod_cast h

theorem fracDigits_lt_ten (fp K : ℕ) : ∀ d ∈ fracDigits fp K, d < 10 := by
  intro d hd
  have hmem : d ∈ natDigits fp ++ List.replicate (K - (natDigits fp).length) 0 := by
    have hsplit := List.takeWhile_append_dropWhile (p := (· == 0))
      (l := natDigits fp ++ List.replicate (K - (natDigits fp).length) 0)
    rw [← hsplit]
    exact List.mem_append_right _ hd
  rcases List.mem_append.mp hmem with h | h
  · exact natDigitsAux_lt_ten fp fp d h
  · have : d = 0 := List.eq_of_mem_replicate h
    omega

theorem fracDigits_decomp (fp K : ℕ) (h : fp < 10 ^ K) :
    ∃ z, z + (fracDigits fp K).length = K
      ∧ fp = 10 ^ z * ofDigitsLSB (fracDigits fp K) := by
  have hlen : (natDigits fp).length ≤ K := natDigitsAux_length fp fp K le_rfl h
  set base := natDigits fp ++ List.replicate (K - (natDigits fp).length) 0 with hbase
  have hbaselen : base.length = K := by
    rw [hbase]
    simp only [List.length_append, List.length_replicate]
    omega
  have hofd : ofDigitsLSB base = fp := by
    rw [hbase, ofDigitsLSB_append_zeros]
    exact ofDigitsLSB_natDigitsAux fp fp le_rfl
  set pre := base.takeWhile (· == 0) with hpre
  have hdecomp : pre ++ fracDigits fp K = base := by
    rw [hpre]
    unfold fracDigits
    rw [← hbase]
    exact List.takeWhile_append_dropWhile _ _
  have hzero : ∀ x ∈ pre, x = 0 := by
    intro x hx
    rw [hpre] at hx
    have := List.mem_takeWhile_imp hx
    simpa using this
  refine ⟨pre.length, ?_, ?_⟩
  · have := congrArg List.length hdecomp
    rw [List.length_append] at this
    omega
  · conv_lhs => rw [← hofd, ← hdecomp]
    exact ofDigitsLSB_zeros_append pre _ hzero

theorem parseUnsigned_fmtAbs (num den : ℕ) (hden : 0 < den)
    (hdvd : den ∣ 10 ^ klen den) :
    parseUnsigned (fmtAbs num den) = some (mkRat (num : ℤ) den) := by
  unfold fmtAbs
  set K := klen den with hK
  set m := num * 10 ^ K / den with hm_def
  set ip := m / 10 ^ K with hip_def
  set fp := m % 10 ^ K with hfp_def
  have h10K : (0:ℕ) < 10 ^ K := pow_pos (by norm_num) K
  have hm : m * den = num * 10 ^ K := by
    rw [hm_def]
    exact Nat.div_mul_cancel (Dvd.dvd.mul_left hdvd num)
  have hsplit : ip * 10 ^ K + fp = m := by
    rw [hip_def, hfp_def, Nat.mul_comm]
    exact Nat.div_add_mod m (10 ^ K)
  have hfp_lt : fp < 10 ^ K := by
    rw [hfp_def]
    exact Nat.mod_lt _ h10K
  obtain ⟨z, hzL, hfpz⟩ := fracDigits_decomp fp K hfp_lt
  by_cases hfe : fracDigits fp K = []
  · have hzero : fp = 0 := by
      rw [hfpz, hfe]
      simp [ofDigitsLSB]
    rw [hfe]
    show parseUnsigned (natToChars ip ++ fracChars []) = _
    rw [show fracChars [] = [] from rfl, List.append_nil]
    rw [parseUnsigned_int_chars _ (natToChars_ne_nil ip) (natToChars_all_digit ip)]
    rw [natOfDigitChars_natToChars]
    have hcross : ip * den = num * 1 := by
      have h1 : ip * 10 ^ K * den = num * 10 ^ K := by
        rw [show ip * 10 ^ K = m by omega]
        exact hm
      have h2 : (ip * den) * 10 ^ K = (num * 1) * 10 ^ K := by
        rw [Nat.mul_one]
        calc (ip * den) * 10 ^ K = ip * 10 ^ K * den := by ring
          _ = num * 10 ^ K := h1
      exact Nat.eq_of_mul_eq_mul_right h10K h2
    rw [mkRat_eq_of_cross (Nat.one_ne_zero) (Nat.pos_iff_ne_zero.mp hden) hcross]
  · rw [show fracChars (fracDigits fp K) = '.' :: ((fracDigits fp K).reverse.map digitChar) by
      unfold fracChars; rw [if_neg hfe]]
    have hfcne : (fracDigits fp K).reverse.map digitChar ≠ [] := by
      simp [hfe]
    have hfcdig : ∀ c ∈ (fracDigits fp K).reverse.map digitChar, c.isDigit = true := by
      intro c hc
      rcases List.mem_map.mp hc with ⟨x, hx, rfl⟩
      exact isDigit_digitChar (fracDigits_lt_ten fp K x (List.mem_reverse.mp hx))
    rw [parseUnsigned_frac_chars _ _ (natToChars_ne_nil ip) (natToChars_all_digit ip)
      hfcne hfcdig]
    rw [natOfDigitChars_natToChars]
    rw [natOfDigitChars_reverse_map _ (fracDigits_lt_ten fp K)]
    have hlenfc : ((fracDigits fp K).reverse.map digitChar).length = (fracDigits fp K).length := by
      rw [List.length_map, List.length_reverse]
    rw [hlenfc]
    have h10L : (0:ℕ) < 10 ^ (fracDigits fp K).length := pow_pos (by norm_num) _
    have hKzL : (10:ℕ) ^ K = 10 ^ z * 10 ^ (fracDigits fp K).length := by
      rw [← pow_add, hzL]
    have hcalc : 10 ^ z * ((ip * 10 ^ (fracDigits fp K).length
        + ofDigitsLSB (fracDigits fp K)) * den)
        = 10 ^ z * (num * 10 ^ (fracDigits fp K).length) := by
      have h1 : (ip * 10 ^ K + fp) * den = num * 10 ^ K := by
        rw [hsplit]
        exact hm
      calc 10 ^ z * ((ip * 10 ^ (fracDigits fp K).length + ofDigitsLSB (fracDigits fp K)) * den)
          = (ip * (10 ^ z * 10 ^ (fracDigits fp K).length)
            + 10 ^ z * ofDigitsLSB (fracDigits fp K)) * den := by ring
        _ = (ip * 10 ^ K + fp) * den := by rw [← hKzL, ← hfpz]
        _ = num * 10 ^ K := h1
        _ = 10 ^ z * (num * 10 ^ (fracDigits fp K).length) := by rw [hKzL]; ring
    have hcross : (ip * 10 ^ (fracDigits fp K).length + ofDigitsLSB (fracDigits fp K)) * den
        = num * 10 ^ (fracDigits fp K).length :=
      Nat.eq_of_mul_eq_mul_left (pow_pos (by norm_num) z) hcalc
    have hcast : ((ip : ℤ) * 10 ^ (fracDigits fp K).length
        + (ofDigitsLSB (fracDigits fp K) : ℤ))
        = ((ip * 10 ^ (fracDigits fp K).length + ofDigitsLSB (fracDigits fp K) : ℕ) : ℤ) := by
      push_cast
      ring
    rw [hcast,
      mkRat_eq_of_cross (Nat.pos_iff_ne_zero.mp h10L) (Nat.pos_iff_ne_zero.mp hden) hcross]

theorem fmtAbs_head_digit (num den : ℕ) :
    ∃ c cs, fmtAbs num den = c :: cs ∧ c.isDigit = true := by
  unfold fmtAbs
  obtain ⟨c, cs', he⟩ :=
    List.exists_cons_of_ne_nil (natToChars_ne_nil (num * 10 ^ klen den / den / 10 ^ klen den))
  refine ⟨c, cs' ++ fracChars (fracDigits (num * 10 ^ klen den / den % 10 ^ klen den)
    (klen den)), ?_, ?_⟩
  · rw [he, List.cons_append]
  · refine natToChars_all_digit (num * 10 ^ klen den / den / 10 ^ klen den) c ?_
    rw [he]
    exact List.mem_cons_self _ _

theorem mkRat_neg_num_den (p : ℚ) : mkRat (-p.num) p.den = -p := by
  rw [Rat.mkRat_eq_div]
  push_cast
  rw [neg_div, Rat.num_div_den]

theorem parseNumChars_fmtChars (q : ℚ) (h : DecRepr q) :
    parseNumChars (fmtChars q) = some q := by
  obtain ⟨k, hk⟩ := h
  have hdvd : q.den ∣ 10 ^ klen q.den := dvd_ten_pow_klen q.den_pos hk
  have habs := parseUnsigned_fmtAbs q.num.natAbs q.den q.den_pos hdvd
  by_cases hneg : q.num < 0
  · rw [show fmtChars q = '-' :: fmtAbs q.num.natAbs q.den by unfold fmtChars; rw [if_pos hneg]]
    unfold parseNumChars
    rw [if_pos (by rfl)]
    simp only [List.tail_cons]
    rw [habs]
    show some (mkRat (-(mkRat (q.num.natAbs : ℤ) q.den).num) (mkRat (q.num.natAbs : ℤ) q.den).den)
      = some q
    rw [mkRat_neg_num_den]
    have hval : mkRat (q.num.natAbs : ℤ) q.den = -q := by
      have hna : (q.num.natAbs : ℤ) = -q.num := by omega
      rw [hna, show -q.num = (-q).num by rw [Rat.neg_num], show q.den = (-q).den by rw [Rat.neg_den]]
      exact Rat.mkRat_self (-q)
    rw [hval, neg_neg]
  · rw [show fmtChars q = fmtAbs q.num.natAbs q.den by unfold fmtChars; rw [if_neg hneg]]
    obtain ⟨c, cs, hcons, hcdig⟩ := fmtAbs_head_digit q.num.natAbs q.den
    unfold parseNumChars
    rw [hcons]
    have hc : c ≠ '-' := by
      intro e
      rw [e] at hcdig
      exact absurd hcdig (by decide)
    rw [if_neg (by simp [hc])]
    rw [← hcons, habs]
    have hna : (q.num.natAbs : ℤ) = q.num := Int.natAbs_of_nonneg (by omega)
    rw [hna, Rat.mkRat_self]

theorem isNumChar_of_isDigit {c : Char} (h : c.isDigit = true) : isNumChar c = true := by
  unfold isNumChar
  rw [h]
  rfl

theorem fracChars_all_numChar (ds : List ℕ) (hds : ∀ d ∈ ds, d < 10) :
    ∀ c ∈ fracChars ds, isNumChar c = true := by
  intro c hc
  unfold fracChars at hc
  by_cases he : ds = []
  · rw [if_pos he] at hc
    simp at hc
  · rw [if_neg he] at hc
    rcases List.mem_cons.mp hc with rfl | h
    · rfl
    · rcases List.mem_map.mp h with ⟨x, hx, rfl⟩
      exact isNumChar_of_isDigit (isDigit_digitChar (hds x (List.mem_reverse.mp hx)))

theorem fmtAbs_all_numChar (num den : ℕ) : ∀ c ∈ fmtAbs num den, isNumChar c = true := by
  intro c hc
  unfold fmtAbs at hc
  rcases List.mem_append.mp hc with h | h
  · exact isNumChar_of_isDigit (natToChars_all_digit _ c h)
  · exact fracChars_all_numChar _ (fracDigits_lt_ten _ _) c h

theorem fmtChars_all_numChar (q : ℚ) : ∀ c ∈ fmtChars q, isNumChar c = true := by
  intro c hc
  unfold fmtChars at hc
  by_cases hn : q.num < 0
  · rw [if_pos hn] at hc
    rcases List.mem_cons.mp hc with rfl | h
    · rfl
    · exact fmtAbs_all_numChar _ _ c h
  · rw [if_neg hn] at hc
    exact fmtAbs_all_numChar _ _ c hc

theorem fmtChars_ne_nil (q : ℚ) : fmtChars q ≠ [] := by
  unfold fmtChars
  by_cases hn : q.num < 0
  · rw [if_pos hn]
    simp
  · rw [if_neg hn]
    obtain ⟨c, cs, h, _⟩ := fmtAbs_head_digit q.num.natAbs q.den
    rw [h]
    simp

theorem rawStep_num_grow (c : Char) (hc : isNumChar c = true) (cs : List Char)
    (rest : List WktRaw) :
    rawStep c (WktRaw.numChunk cs :: rest) = WktRaw.numChunk (c :: cs) :: rest := by
  unfold rawStep
  rw [if_pos hc]

theorem rawStep_num_new (c : Char) (hc : isNumChar c = true) (ts : List WktRaw)
    (hts : ∀ cs rest, ts ≠ WktRaw.numChunk cs :: rest) :
    rawStep c ts = WktRaw.numChunk [c] :: ts := by
  unfold rawStep
  rw [if_pos hc]
  rcases ts with _ | ⟨h, t⟩
  · rfl
  · cases h
    case numChunk cs => exact absurd rfl (hts cs t)
    all_goals rfl

theorem foldr_rawStep_numChunk :
    ∀ (chunk : List Char), chunk ≠ [] → (∀ c ∈ chunk, isNumChar c = true) →
      ∀ ts : List WktRaw, (∀ cs rest, ts ≠ WktRaw.numChunk cs :: rest) →
      List.foldr rawStep ts chunk = WktRaw.numChunk chunk :: ts
  | [], hne, _, _, _ => absurd rfl hne
  | [c], _, hall, ts, hts => by
    show rawStep c ts = _
    rw [rawStep_num_new c (hall c (List.mem_cons_self c [])) ts hts]
  | c :: c2 :: t, _, hall, ts, hts => by
    show rawStep c (List.foldr rawStep ts (c2 :: t)) = _
    rw [foldr_rawStep_numChunk (c2 :: t) (by simp)
      (fun x hx => hall x (List.mem_cons_of_mem _ hx)) ts hts]
    exact rawStep_num_grow c (hall c (List.mem_cons_self _ _)) _ _

theorem rawTokens_point_text (A B : List Char) (hA : A ≠ []) (hB : B ≠ [])
    (hallA : ∀ c ∈ A, isNumChar c = true) (hallB : ∀ c ∈ B, isNumChar c = true) :
    rawTokens ('P' :: 'O' :: 'I' :: 'N' :: 'T' :: '(' :: (A ++ ' ' :: (B ++ [')'])))
      = [WktRaw.wordChunk ['P', 'O', 'I', 'N', 'T'], WktRaw.lparen, WktRaw.numChunk A,
        WktRaw.sep, WktRaw.numChunk B, WktRaw.rparen] := by
  have h1 : List.foldr rawStep [] (B ++ [')']) = [WktRaw.numChunk B, WktRaw.rparen] := by
    rw [List.foldr_append]
    exact foldr_rawStep_numChunk B hB hallB [WktRaw.rparen] (fun cs rest h => by simp at h)
  have h3 : List.foldr rawStep [] (A ++ ' ' :: (B ++ [')']))
      = [WktRaw.numChunk A, WktRaw.sep, WktRaw.numChunk B, WktRaw.rparen] := by
    rw [List.foldr_append]
    have h2 : List.foldr rawStep [] (' ' :: (B ++ [')']))
        = [WktRaw.sep, WktRaw.numChunk B, WktRaw.rparen] := by
      show rawStep ' ' (List.foldr rawStep [] (B ++ [')'])) = _
      rw [h1]
      rfl
    rw [h2]
    exact foldr_rawStep_numChunk A hA hallA
      [WktRaw.sep, WktRaw.numChunk B, WktRaw.rparen] (fun cs rest h => by simp at h)
  show rawStep 'P' (rawStep 'O' (rawStep 'I' (rawStep 'N' (rawStep 'T' (rawStep '('
    (List.foldr rawStep [] (A ++ ' ' :: (B ++ [')'])))))))) = _
  rw [h3]
  rfl

theorem toToks_point_shape (A B : List Char) (qa qb : ℚ)
    (hA : parseNumChars A = some qa) (hB : parseNumChars B = some qb) :
    toToks [WktRaw.wordChunk ['P', 'O', 'I', 'N', 'T'], WktRaw.lparen, WktRaw.numChunk A,
        WktRaw.sep, WktRaw.numChunk B, WktRaw.rparen]
      = some [WktTok.word ['P', 'O', 'I', 'N', 'T'], WktTok.lparen, WktTok.num qa,
        WktTok.num qb, WktTok.rparen] := by
  simp [toToks, hA, hB]

theorem point_text_roundtrip (lon lat : ℚ) (hlon : DecRepr lon) (hlat : DecRepr lat) :
    wkt_loads (convert_wkb_to_wkt (from_shape (Geom.point lon lat) 4326))
      = some (Geom.point lon lat) := by
  show (toToks (rawTokens ('P' :: 'O' :: 'I' :: 'N' :: 'T' :: '('
    :: (fmtChars lon ++ ' ' :: (fmtChars lat ++ [')']))))).bind parseToks = _
  rw [rawTokens_point_text _ _ (fmtChars_ne_nil lon) (fmtChars_ne_nil lat)
    (fmtChars_all_numChar lon) (fmtChars_all_numChar lat)]
  rw [toToks_point_shape _ _ _ _ (parseNumChars_fmtChars lon hlon)
    (parseNumChars_fmtChars lat hlat)]
  rfl

theorem strMkAppend (a b : List Char) : String.mk a ++ String.mk b = String.mk (a ++ b) := rfl

theorem decode_text_canonical (lon lat : ℚ) :
    convert_wkb_to_wkt (from_shape (Geom.point lon lat) 4326)
      = "POINT(" ++ fmtRat lon ++ " " ++ fmtRat lat ++ ")" := by
  show String.mk ('P' :: 'O' :: 'I' :: 'N' :: 'T' :: '('
    :: (fmtChars lon ++ ' ' :: (fmtChars lat ++ [')']))) = _
  rw [show ("POINT(" : String) = String.mk ['P', 'O', 'I', 'N', 'T', '('] from rfl,
    show (" " : String) = String.mk [' '] from rfl,
    show (")" : String) = String.mk [')'] from rfl,
    show fmtRat lon = String.mk (fmtChars lon) from rfl,
    show fmtRat lat = String.mk (fmtChars lat) from rfl,
    strMkAppend, strMkAppend, strMkAppend, strMkAppend]
  apply congrArg
  simp [List.append_assoc]

theorem mem_insertById (r x : ExamplePoint) (l : List ExamplePoint) :
    x ∈ insertById r l ↔ x = r ∨ x ∈ l := by
  induction l with
  | nil => simp [insertById]
  | cons a t ih =>
    unfold insertById
    by_cases h : r.id ≤ a.id
    · rw [if_pos h]
      simp [List.mem_cons]
    · rw [if_neg h]
      simp [List.mem_cons, ih]
      tauto

theorem mem_sortById (l : List ExamplePoint) (x : ExamplePoint) :
    x ∈ sortById l ↔ x ∈ l := by
  unfold sortById
  induction l with
  | nil => simp
  | cons a t ih => simp [List.foldr_cons, mem_insertById, ih]

theorem pairwise_insertById (r : ExamplePoint) (l : List ExamplePoint)
    (h : List.Pairwise (fun a b => a.id ≤ b.id) l) :
    List.Pairwise (fun a b => a.id ≤ b.id) (insertById r l) := by
  induction l with
  | nil => simp [insertById]
  | cons a t ih =>
    unfold insertById
    rcases List.pairwise_cons.mp h with ⟨ha, ht⟩
    by_cases hle : r.id ≤ a.id
    · rw [if_pos hle]
      refine List.pairwise_cons.mpr ⟨?_, h⟩
      intro b hb
      rcases List.mem_cons.mp hb with rfl | hbt
      · exact hle
      · exact le_trans hle (ha b hbt)
    · rw [if_neg hle]
      refine List.pairwise_cons.mpr ⟨?_, ih ht⟩
      intro b hb
      rcases (mem_insertById r b t).mp hb with rfl | hbt
      · exact le_of_not_le hle
      · exact ha b hbt

theorem pairwise_sortById (l : List ExamplePoint) :
    List.Pairwise (fun a b => a.id ≤ b.id) (sortById l) := by
  unfold sortById
  induction l with
  | nil => simp
  | cons a t ih => exact pairwise_insertById a _ ih

/-- C1: for every point with lon in `[-180, 180]` and lat in `[-90, 90]`
(decimal-representable, the floating-point formatting tolerance), encoding
it to the backend-native representation with `from_shape` at SRID 4326
(`toNative`) and decoding that native value back to text with
`convert_wkb_to_wkt` (`decodeToText`) yields the canonical text
`POINT(<lon> <lat>)`, and parsing that text with `wkt_loads` recovers
exactly the same point. -/
theorem roundtrip_toNative_decodeToText (lon lat : ℚ)
    (hlon1 : -180 ≤ lon) (hlon2 : lon ≤ 180) (hlat1 : -90 ≤ lat) (hlat2 : lat ≤ 90)
    (hlon : DecRepr lon) (hlat : DecRepr lat) :
    convert_wkb_to_wkt (from_shape (Geom.point lon lat) 4326)
        = "POINT(" ++ fmtRat lon ++ " " ++ fmtRat lat ++ ")"
      ∧ wkt_loads (convert_wkb_to_wkt (from_shape (Geom.point lon lat) 4326))
        = some (Geom.point lon lat) :=
  ⟨decode_text_canonical lon lat, point_text_roundtrip lon lat hlon hlat⟩

/-- Witness for C1 at the concrete point `(1/2, -3/4)`. -/
theorem roundtrip_toNative_decodeToText_witness :
    convert_wkb_to_wkt (from_shape (Geom.point (mkRat 1 2) (mkRat (-3) 4)) 4326)
        = "POINT(" ++ fmtRat (mkRat 1 2) ++ " " ++ fmtRat (mkRat (-3) 4) ++ ")"
      ∧ wkt_loads (convert_wkb_to_wkt (from_shape (Geom.point (mkRat 1 2) (mkRat (-3) 4)) 4326))
        = some (Geom.point (mkRat 1 2) (mkRat (-3) 4)) :=
  roundtrip_toNative_decodeToText (mkRat 1 2) (mkRat (-3) 4) (by decide) (by decide)
    (by decide) (by decide) ⟨1, by decide⟩ ⟨2, by decide⟩

/-- C2 counterexample: the claim says `"POINT(200 10)"` and `"POINT(10 100)"`
fail with `OutOfRange` and `"LINESTRING(0 0, 1 1)"` fails with
`MalformedGeometry`; in fact `create_example_point` accepts and stores the two
out-of-range points (no range validation exists anywhere in the code), and the
line string parses successfully, being rejected only by the `POINT` column
constraint at insert time. -/
theorem create_no_range_check_counterexample :
    (create_example_point db0 0 ⟨"POINT(200 10)", 1⟩).1
        = Except.ok ⟨1, 0, from_shape (Geom.point 200 10) 4326, 1⟩
      ∧ (create_example_point db0 0 ⟨"POINT(10 100)", 1⟩).1
        = Except.ok ⟨1, 0, from_shape (Geom.point 10 100) 4326, 1⟩
      ∧ (create_example_point db0 0 ⟨"LINESTRING(0 0, 1 1)", 1⟩).1
        ≠ Except.error ApiError.malformedGeometry
      ∧ (create_example_point db0 0 ⟨"LINESTRING(0 0, 1 1)", 1⟩).1
        = Except.error ApiError.constraintViolation :=
  ⟨by decide, by decide, by decide, by decide⟩

/-- C2 amended: `create_example_point` fails with `MalformedGeometry` exactly
when the text does not parse as WKT at all (wrong token count, non-numeric
ordinates, junk); a well-formed non-point geometry such as
`LINESTRING(0 0, 1 1)` passes parsing and is rejected as a storage
`ConstraintViolation` instead, and no `OutOfRange` validation is performed:
`POINT(200 10)` and `POINT(10 100)` are accepted and stored. -/
theorem create_error_classification (text : String) (v : ℚ) (db : DBState) (now : ℕ)
    (hparse : wkt_loads text = none) :
    create_example_point db now ⟨text, v⟩ = (Except.error ApiError.malformedGeometry, db)
      ∧ (create_example_point db0 0 ⟨"LINESTRING(0 0, 1 1)", 1⟩).1
        = Except.error ApiError.constraintViolation
      ∧ resultIsOk (create_example_point db0 0 ⟨"POINT(200 10)", 1⟩).1 = true
      ∧ resultIsOk (create_example_point db0 0 ⟨"POINT(10 100)", 1⟩).1 = true := by
  refine ⟨?_, by decide, by decide, by decide⟩
  unfold create_example_point
  rw [hparse]

/-- Witness for C2 (amended) at the malformed text `"POINT(10)"`. -/
theorem create_error_classification_witness :
    wkt_loads "POINT(10)" = none
      ∧ create_example_point db0 0 ⟨"POINT(10)", 1⟩
        = (Except.error ApiError.malformedGeometry, db0) :=
  ⟨by decide, (create_error_classification "POINT(10)" 1 db0 0 (by decide)).1⟩

/-- C3: for every text parsing to a point and every value, create persists
exactly one new row and returns the full record: its `value` equals the input
value, its `id` is the next storage-generated key, its `created_at` is the
current instant, the store gains exactly that row at the end, and the
serialised record's geometry text is the round-tripped decoding of the
stored native value. -/
theorem create_persists_record (db : DBState) (now : ℕ) (text : String) (v : ℚ)
    (lon lat : ℚ) (hparse : wkt_loads text = some (Geom.point lon lat)) :
    ∃ rec db2, create_example_point db now ⟨text, v⟩ = (Except.ok rec, db2)
      ∧ rec.value = v
      ∧ rec.id = db.nextId
      ∧ rec.created_at = now
      ∧ db2.rows = db.rows ++ [rec]
      ∧ db2.nextId = db.nextId + 1
      ∧ toResponseModel rec = ⟨db.nextId, some now,
          convert_wkb_to_wkt (from_shape (Geom.point lon lat) 4326), v⟩ := by
  refine ⟨⟨db.nextId, now, from_shape (Geom.point lon lat) 4326, v⟩,
    ⟨db.rows ++ [⟨db.nextId, now, from_shape (Geom.point lon lat) 4326, v⟩], db.nextId + 1⟩,
    ?_, rfl, rfl, rfl, rfl, rfl, rfl⟩
  unfold create_example_point
  rw [hparse]
  rfl

/-- Witness for C3 at the spec's example `create("POINT(51.51999 -0.10684)", 42.5)`:
the returned record has value `42.5`, id `1`, the creation instant, and its
geometry text round-trips to exactly the input string. -/
theorem create_persists_record_witness :
    wkt_loads "POINT(51.51999 -0.10684)"
        = some (Geom.point (mkRat 5151999 100000) (mkRat (-10684) 100000))
      ∧ ∃ rec db2, create_example_point db0 7 ⟨"POINT(51.51999 -0.10684)", mkRat 85 2⟩
          = (Except.ok rec, db2)
        ∧ rec.value = mkRat 85 2
        ∧ rec.id = 1
        ∧ rec.created_at = 7
        ∧ toResponseModel rec = ⟨1, some 7, "POINT(51.51999 -0.10684)", mkRat 85 2⟩ := by
  refine ⟨by decide, ?_⟩
  obtain ⟨rec, db2, h1, h2, h3, h4, h5, h6, h7⟩ :=
    create_persists_record db0 7 "POINT(51.51999 -0.10684)" (mkRat 85 2)
      (mkRat 5151999 100000) (mkRat (-10684) 100000) (by decide)
  refine ⟨rec, db2, h1, h2, h3, h4, ?_⟩
  rw [h7]
  decide

/-- C10: create is atomic on validation failure: whenever the geometry text
fails to parse, `create_example_point` raises `MalformedGeometry` before any
database mutation, so the store state is returned unchanged. -/
theorem create_atomic_on_parse_failure (db : DBState) (now : ℕ)
    (data : ExamplePointCreate) (hparse : wkt_loads data.geom = none) :
    create_example_point db now data = (Except.error ApiError.malformedGeometry, db) := by
  unfold create_example_point
  rw [hparse]

/-- Witness for C10 at the unparseable text `"not a geometry"` against a
non-empty store. -/
theorem create_atomic_on_parse_failure_witness :
    wkt_loads "not a geometry" = none
      ∧ create_example_point dbCorner 3 ⟨"not a geometry", 5⟩
        = (Except.error ApiError.malformedGeometry, dbCorner) :=
  ⟨by decide, create_atomic_on_parse_failure dbCorner 3 ⟨"not a geometry", 5⟩ (by decide)⟩

/-- C4: for every store state and bounds with `min_lat ≤ max_lat` and
`min_lon ≤ max_lon`, the bounding-box query returns exactly the stored
records whose geometry intersects the closed `ST_MakeEnvelope` envelope
(boundary contact included), ordered by ascending `id`. -/
theorem queryBBox_exact_and_sorted (db : DBState) (min_lat max_lat min_lon max_lon : ℚ)
    (h1 : min_lat ≤ max_lat) (h2 : min_lon ≤ max_lon) :
    (∀ r, r ∈ get_example_points_in_bbox db min_lat max_lat min_lon max_lon
        ↔ r ∈ db.rows ∧ ST_Intersects (to_shape r.geom)
            (ST_MakeEnvelope min_lon min_lat max_lon max_lat 4326) = true)
      ∧ List.Pairwise (fun a b => a.id ≤ b.id)
          (get_example_points_in_bbox db min_lat max_lat min_lon max_lon) := by
  constructor
  · intro r
    unfold get_example_points_in_bbox
    rw [mem_sortById]
    simp [List.mem_filter]
  · unfold get_example_points_in_bbox
    exact pairwise_sortById _

/-- Witness for C4: the point stored at exactly the envelope corner `(1, 1)`
is returned by `queryBBox(min_lat := -1, max_lat := 1, min_lon := -1,
max_lon := 1)` — boundary contact counts as intersection. -/
theorem queryBBox_exact_and_sorted_witness :
    cornerRow ∈ get_example_points_in_bbox dbCorner (-1) 1 (-1) 1 :=
  ((queryBBox_exact_and_sorted dbCorner (-1) 1 (-1) 1 (by norm_num) (by norm_num)).1
    cornerRow).mpr ⟨by decide, by decide⟩

/-- C5: for bounds with `min_lat > max_lat` or `min_lon > max_lon`, the
bounding-box handler fails with an HTTP 422 `InvalidBounds` error, and the
result does not depend on the store state at all — storage is never
touched. -/
theorem queryBBox_invalid_bounds (db : DBState) (min_lat max_lat min_lon max_lon : ℚ)
    (h : min_lat > max_lat ∨ min_lon > max_lon) :
    (∃ msg, read_points_in_bbox db min_lat max_lat min_lon max_lon
        = Except.error (ApiError.invalidBounds msg))
      ∧ ∀ db2, read_points_in_bbox db2 min_lat max_lat min_lon max_lon
        = read_points_in_bbox db min_lat max_lat min_lon max_lon := by
  unfold read_points_in_bbox
  rcases h with h | h
  · rw [if_pos h]
    exact ⟨⟨_, rfl⟩, fun db2 => by rw [if_pos h]⟩
  · by_cases h1 : min_lat > max_lat
    · rw [if_pos h1]
      exact ⟨⟨_, rfl⟩, fun db2 => by rw [if_pos h1]⟩
    · rw [if_neg h1, if_pos h]
      exact ⟨⟨_, rfl⟩, fun db2 => by rw [if_neg h1, if_pos h]⟩

/-- Witness for C5 at the spec's example `queryBBox(min_lat := 5,
max_lat := -5, ...)`. -/
theorem queryBBox_invalid_bounds_witness :
    ∃ msg, read_points_in_bbox dbCorner 5 (-5) 0 0
      = Except.error (ApiError.invalidBounds msg) :=
  (queryBBox_invalid_bounds dbCorner 5 (-5) 0 0 (Or.inl (by norm_num))).1

/-- C6: every geometry persisted by create is tagged with SRID 4326
unconditionally — the `from_shape` call hardcodes `srid=4326` for every
caller input — and the all-rows-tagged-4326 invariant is preserved by
create and maintained in everything returned by `listAll` and
`queryBBox`. -/
theorem srid_4326_invariant (db : DBState) (now : ℕ) (data : ExamplePointCreate)
    (hdb : Srid4326 db) :
    (∀ rec db2, create_example_point db now data = (Except.ok rec, db2) →
        rec.geom.srid = 4326 ∧ Srid4326 db2)
      ∧ (∀ r ∈ get_all_example_points db, r.geom.srid = 4326)
      ∧ (∀ min_lat max_lat min_lon max_lon : ℚ,
          ∀ r ∈ get_example_points_in_bbox db min_lat max_lat min_lon max_lon,
            r.geom.srid = 4326) := by
  refine ⟨?_, fun r hr => hdb r hr, ?_⟩
  · intro rec db2 h
    unfold create_example_point at h
    rcases hp : wkt_loads data.geom with _ | shape
    · rw [hp] at h
      simp at h
    · rw [hp] at h
      replace h : (if isPointGeom (from_shape shape 4326).geom = true then
          (Except.ok (⟨db.nextId, now, from_shape shape 4326, data.value⟩ : ExamplePoint),
            (⟨db.rows ++ [⟨db.nextId, now, from_shape shape 4326, data.value⟩],
              db.nextId + 1⟩ : DBState))
        else (Except.error ApiError.constraintViolation, db)) = (Except.ok rec, db2) := h
      by_cases hpt : isPointGeom (from_shape shape 4326).geom = true
      · rw [if_pos hpt, Prod.mk.injEq] at h
        obtain ⟨h1, h2⟩ := h
        rw [Except.ok.injEq] at h1
        refine ⟨?_, ?_⟩
        · rw [← h1]
          rfl
        · intro r hr
          rw [← h2] at hr
          rcases List.mem_append.mp hr with hold | hnew
          · exact hdb r hold
          · rw [List.mem_singleton.mp hnew]
            rfl
      · rw [if_neg hpt] at h
        simp at h
  · intro min_lat max_lat min_lon max_lon r hr
    unfold get_example_points_in_bbox at hr
    rw [mem_sortById] at hr
    exact hdb r (List.mem_filter.mp hr).1

/-- Witness for C6 on the empty store with a point payload: the created row
carries SRID 4326 and the invariant holds for the resulting store. -/
theorem srid_4326_invariant_witness :
    (⟨1, 0, from_shape (Geom.point 1 2) 4326, 1⟩ : ExamplePoint).geom.srid = 4326
      ∧ Srid4326 ⟨[⟨1, 0, from_shape (Geom.point 1 2) 4326, 1⟩], 2⟩ :=
  (srid_4326_invariant db0 0 ⟨"POINT(1 2)", 1⟩
      (fun r hr => absurd hr (List.not_mem_nil r))).1
    ⟨1, 0, from_shape (Geom.point 1 2) 4326, 1⟩
    ⟨[⟨1, 0, from_shape (Geom.point 1 2) 4326, 1⟩], 2⟩ (by decide)

/-- C7 counterexample: the claim says `listAll` returns records ordered by
ascending `id`, but `get_all_example_points` issues a `SELECT` with no
`ORDER BY` — rows come back in backend storage order, which nothing in the
repository constrains.  On a store whose backend order is `[id 2, id 1]`,
the listing preserves that order and is not ascending. -/
theorem listAll_order_counterexample :
    (read_points dbUnsorted).map (fun m => m.id) = [2, 1]
      ∧ ¬ List.Pairwise (fun a b => a ≤ b) ((read_points dbUnsorted).map (fun m => m.id)) :=
  ⟨by decide, by decide⟩

/-- C7 amended: `listAll` returns every stored record exactly once, with each
geometry decoded to WKT text by the response schema, in backend storage
order (no ordering is requested by the code, unlike the bbox query); on the
empty store it returns the empty sequence as a normal success. -/
theorem listAll_returns_all_decoded (db : DBState) :
    (read_points db).length = (get_all_example_points db).length
      ∧ (∀ m, m ∈ read_points db
          ↔ ∃ r ∈ get_all_example_points db, toResponseModel r = m)
      ∧ read_points db = (get_all_example_points db).map toResponseModel
      ∧ read_points db0 = [] := by
  refine ⟨?_, ?_, rfl, rfl⟩
  · unfold read_points
    rw [List.length_map]
  · intro m
    unfold read_points
    simp [List.mem_map]

/-- C8: `get_db` opens exactly one session per request body and closes it on
every exit path — the session count rises by exactly one opening and exactly
one closing whether the body returns a success or an error, and the body's
result is passed through unchanged. -/
theorem get_db_session_scope {α : Type} (body : DBState → Except ApiError α × DBState)
    (db : DBState) (log : SessionLog) :
    (get_db body db log).2.opened = log.opened + 1
      ∧ (get_db body db log).2.closed = log.closed + 1
      ∧ (get_db body db log).1 = body db := by
  unfold get_db
  rcases hres : body db with ⟨res, db2⟩
  rcases res with e | a <;> exact ⟨rfl, rfl, rfl⟩

/-- C9: the public bbox endpoint validates the query-parameter ranges before
the handler body runs: any latitude bound outside `[-90, 90]` or longitude
bound outside `[-180, 180]` yields a 422 validation error, independently of
the store — the repository is never invoked. -/
theorem bbox_endpoint_range_validation (db : DBState)
    (min_lat max_lat min_lon max_lon : ℚ)
    (h : min_lat < -90 ∨ 90 < min_lat ∨ max_lat < -90 ∨ 90 < max_lat
      ∨ min_lon < -180 ∨ 180 < min_lon ∨ max_lon < -180 ∨ 180 < max_lon) :
    bbox_endpoint db min_lat max_lat min_lon max_lon
        = Except.error ApiError.validationError
      ∧ ∀ db2, bbox_endpoint db2 min_lat max_lat min_lon max_lon
        = Except.error ApiError.validationError := by
  have key : ∀ db2 : DBState, bbox_endpoint db2 min_lat max_lat min_lon max_lon
      = Except.error ApiError.validationError := by
    intro db2
    unfold bbox_endpoint
    rw [if_pos h]
  exact ⟨key db, key⟩

/-- Witness for C9 at `min_lat = -91`, outside the latitude range. -/
theorem bbox_endpoint_range_validation_witness :
    bbox_endpoint dbCorner (-91) 0 0 0 = Except.error ApiError.validationError :=
  (bbox_endpoint_range_validation dbCorner (-91) 0 0 0 (Or.inl (by norm_num))).1
